import Mathlib

/-!
Verification of the natural-language specification of the MLIR reduction
fusion planner (`xla/service/gpu/fusions/reduction_mlir.h`).

The repository sources contain only the interface header; every function
body lives in `reduction_mlir.cc`, which is not part of the sources.
Definitions below that embed such missing bodies carry a doc comment
starting with `Modelled from the spec:` and follow the spec's words;
definitions embedding material visible in the header (types, default
implementations, documented contracts) follow the header.
-/

namespace XlaGpu

/-- Classification of a logical tensor dimension of the reduced operand:
either a batch dimension, a kept (non-reduced, output) dimension, or a
reduced dimension.  Mirrors the batch/kept/reduced decomposition of
`ReductionDimensions` described in the spec's data model. -/
inductive DimClass where
  | Batch
  | Kept
  | Reduced
deriving DecidableEq, Repr

/-- `ReductionDimensions` from the spec's data model:
`{ batch_size, reduced_size, kept_size, is_row_reduction }` — the logical
shape of the reduction after collapsing non-participating dimensions. -/
structure ReductionDimensions where
  batch_size : Nat
  reduced_size : Nat
  kept_size : Nat
  is_row_reduction : Bool
deriving DecidableEq, Repr

/-- Product of the extents of the dimensions of `shape` classified as `c`
by the parallel list `classes`. -/
def classProd (c : DimClass) (shape : List Nat) (classes : List DimClass) : Nat :=
  (((shape.zip classes).filter (fun p => p.2 == c)).map Prod.fst).prod

/-- Modelled from the spec: the `ReductionAnalysis` computation of base
reduction dimensions (the body computing `reduction_dimensions_`, in
`reduction_mlir.cc` / `reduction_utils`, is absent from the sources).
The spec: "computes base reduction dimensions (batch/reduced/kept sizes)
and whether the layout makes this a row or column reduction"; "if the
reduced dimension is minor-most, classify as row reduction".  The shape
is the reduced operand's dimension list, `classes` classifies each
dimension; the minor-most dimension is the last one. -/
def computeReductionDimensions (shape : List Nat) (classes : List DimClass) :
    ReductionDimensions :=
  { batch_size := classProd .Batch shape classes
    reduced_size := classProd .Reduced shape classes
    kept_size := classProd .Kept shape classes
    is_row_reduction := classes.getLast? == some .Reduced }

/-- Element count of a shape: the product of its dimension extents
(`Shape` of the reduced operand, returned by `GetReduceOperandShape`). -/
def elementCount (shape : List Nat) : Nat := shape.prod

/-- The two mutually exclusive strategy variants of the planner
(`MlirRowReductionFusion` / `MlirColumnReductionFusion`). -/
inductive Strategy where
  | Row
  | Column
deriving DecidableEq, Repr

/-- Modelled from the spec: `CreateMlirReductionFusion` (declared in the
header, body in `reduction_mlir.cc` absent from the sources) selects the
strategy variant once, from the analysis result: row reduction layouts
get the row strategy, all others the column strategy. -/
def CreateMlirReductionFusion (rd : ReductionDimensions) : Strategy :=
  if rd.is_row_reduction then .Row else .Column

/-- The error taxonomy of the spec's §7 that the analysis step may
report; `UnsupportedShape` covers multiple reduction groups, side
outputs and unsupported layouts. -/
inductive PlanError where
  | UnsupportedShape
deriving DecidableEq, Repr

/-- `ReductionGroups` from the spec's data model, with the per-group
hero / root / side-output lists of the header
(`reduction_heroes_`, `reduction_roots_`, `side_output_roots_`).
Instructions are identified by numeric ids. -/
structure ReductionGroups where
  reduction_heroes : List (List Nat)
  reduction_roots : List (List Nat)
  side_output_roots : List (List Nat)
deriving DecidableEq, Repr

/-- The result of the analysis step when it succeeds: the groups and the
base reduction dimensions (spec §4.1:
`Analyze(subgraph) -> (ReductionGroups, ReductionDimensions, first_hero)`). -/
structure AnalysisResult where
  groups : ReductionGroups
  dims : ReductionDimensions
deriving DecidableEq, Repr

/-- Modelled from the spec: the analysis step's rejection logic (the
constructor body in `reduction_mlir.cc` is absent from the sources; the
header documents "Currently not fully implemented: only single reduction
groups, no side outputs").  Spec §4.1: "Fails (reports 'unsupported
fusion shape') when: more than one reduction group is present, or any
side output exists". -/
def Analyze (g : ReductionGroups) (rd : ReductionDimensions) :
    Except PlanError AnalysisResult :=
  if g.reduction_heroes.length > 1 ∨ g.side_output_roots.any (fun l => !l.isEmpty) then
    .error .UnsupportedShape
  else
    .ok ⟨g, rd⟩

/-- Device limits supplied by the caller (spec §6: "device limits (max
threads per block, warp size, max shared memory per block)"); the shared
memory budget is counted in partial-result elements. -/
structure DeviceLimits where
  warp_size : Nat
  max_threads_per_block : Nat
  shared_mem_elems_per_block : Nat
deriving DecidableEq, Repr

/-- `TilingParameters` from the spec's data model, matching the header
fields `tile_sizes_per_thread_`, `tile_sizes_per_block_`, `num_threads_`,
`num_blocks_`, `vector_size_`. -/
structure TilingParameters where
  tile_sizes_per_thread : List Nat
  tile_sizes_per_block : List Nat
  num_threads : List Nat
  num_blocks : List Nat
  vector_size : Nat
deriving DecidableEq, Repr

/-- `LaunchDimensions`: `{ grid = num_blocks, block = num_threads }`. -/
structure LaunchDimensions where
  grid : List Nat
  block : List Nat
deriving DecidableEq, Repr

/-- Ceiling division on naturals. -/
def cdiv (n k : Nat) : Nat := (n + k - 1) / k

/-- Modelled from the spec: the TilingPlanner's vector-width choice (the
body, in `reduction_mlir.cc`, is absent from the sources).  Spec §4.2:
"Chooses `vector_size` ... typical candidates: 1, 2, 4 — the largest
that evenly divides the reduced dimension's minor extent". -/
def pickVectorSize (minorExtent : Nat) : Nat :=
  if minorExtent % 4 == 0 then 4 else if minorExtent % 2 == 0 then 2 else 1

/-- Modelled from the spec: `GetWarpsPerRow`, the number of warps
working on one output element (body in `reduction_mlir.cc` absent from
the sources).  Spec §4.2: warps-per-output-row is chosen "when one warp
alone is insufficient to cover the reduced extent"; it is capped by the
block thread limit and by the shared-memory budget (spec §7:
*ResourceLimitExceeded* "must be caught during TilingPlanner and force a
different tiling choice"), and is at least one warp. -/
def planWarpsPerRow (rd : ReductionDimensions) (dl : DeviceLimits) : Nat :=
  max 1 (min (cdiv rd.reduced_size (dl.warp_size * pickVectorSize rd.reduced_size))
    (min (dl.max_threads_per_block / dl.warp_size) dl.shared_mem_elems_per_block))

/-- The logical dimensions of a reduction, ordered
[batch, kept, reduced] to match the row-reduction projected shape. -/
def logicalDims (rd : ReductionDimensions) : List Nat :=
  [rd.batch_size, rd.kept_size, rd.reduced_size]

/-- Modelled from the spec: the TilingPlanner for the row strategy,
`Plan(ReductionDimensions, device_limits) -> TilingParameters,
LaunchDimensions` (body in `reduction_mlir.cc` absent from the sources).
Dimension order is [batch, kept, reduced].  Threads are placed along the
reduced dimension in whole warps; blocks cover batch and kept; the
per-thread reduced tile (including the vector width) is the ceiling
cover of the reduced extent; `tile_sizes_per_block[d]` is
`tile_sizes_per_thread[d] * num_threads[d]`. -/
def rowPlan (rd : ReductionDimensions) (dl : DeviceLimits) :
    TilingParameters × LaunchDimensions :=
  let v := pickVectorSize rd.reduced_size
  let warps := planWarpsPerRow rd dl
  let threadsReduced := warps * dl.warp_size
  let tileReduced := v * cdiv rd.reduced_size (threadsReduced * v)
  let numThreads := [1, 1, threadsReduced]
  let tilesPerThread := [1, 1, tileReduced]
  let tilesPerBlock := List.zipWith (· * ·) tilesPerThread numThreads
  let numBlocks := [rd.batch_size, rd.kept_size, 1]
  ({ tile_sizes_per_thread := tilesPerThread
     tile_sizes_per_block := tilesPerBlock
     num_threads := numThreads
     num_blocks := numBlocks
     vector_size := v },
   { grid := numBlocks, block := numThreads })

/-- Affine expressions over dimension variables and symbols, the result
language of `IndexingMap` (`mlir::AffineExpr`).  `floordiv` is MLIR's
floor division; it is evaluated below with Euclidean division, which
agrees with floor division for the positive divisors used here. -/
inductive AffineExpr where
  | const (c : Int)
  | dim (d : Nat)
  | sym (s : Nat)
  | add (a b : AffineExpr)
  | mul (a b : AffineExpr)
  | floordiv (a b : AffineExpr)
deriving DecidableEq, Repr

/-- Evaluate an affine expression at an assignment of dimension
variables and symbols. -/
def AffineExpr.eval (dims syms : Nat → Int) : AffineExpr → Int
  | .const c => c
  | .dim d => dims d
  | .sym s => syms s
  | .add a b => a.eval dims syms + b.eval dims syms
  | .mul a b => a.eval dims syms * b.eval dims syms
  | .floordiv a b => a.eval dims syms / b.eval dims syms

/-- Whether symbol `s` occurs in the expression. -/
def AffineExpr.occursSym (s : Nat) : AffineExpr → Bool
  | .const _ => false
  | .dim _ => false
  | .sym t => t == s
  | .add a b => a.occursSym s || b.occursSym s
  | .mul a b => a.occursSym s || b.occursSym s
  | .floordiv a b => a.occursSym s || b.occursSym s

/-- Inclusive integer interval `[lower, upper]` (`Interval` from
`indexing_map.h`). -/
structure Interval where
  lower : Int
  upper : Int
deriving DecidableEq, Repr

/-- The number of integer points of an interval. -/
def Interval.size (i : Interval) : Int := i.upper - i.lower + 1

/-- `IndexingMap` (from `indexing_map.h`): an affine map with interval
ranges for the dimension variables and the symbols, result expressions,
and extra affine constraints; or the explicit undefined sentinel
`IndexingMap::GetUndefined()`. -/
inductive IndexingMap where
  | undefined
  | affineMap (dimRanges : List Interval) (symRanges : List Interval)
      (results : List AffineExpr) (constraints : List (AffineExpr × Interval))
deriving DecidableEq, Repr

/-- `IndexingMap::IsUndefined()`. -/
def IndexingMap.isUndefined : IndexingMap → Bool
  | .undefined => true
  | .affineMap _ _ _ _ => false

/-- The declared range of symbol `i` of an indexing map, if any. -/
def IndexingMap.symRange (m : IndexingMap) (i : Nat) : Option Interval :=
  match m with
  | .undefined => none
  | .affineMap _ symRanges _ _ => symRanges[i]?

/-- Modelled from the spec: `MlirReductionFusion::GetIndexingMap` (body
in `reduction_mlir.cc` absent from the sources).  Header contract:
"Returns a reduction indexing map with the given results.  Symbols are
derived from tile_sizes_per_thread_.  Symbols not occurring in the
results have their ranges set to 1 (instead of the size)." -/
def GetIndexingMap (tileSizesPerThread : List Nat) (dimRanges : List Interval)
    (results : List AffineExpr) : IndexingMap :=
  .affineMap dimRanges
    ((List.range tileSizesPerThread.length).map fun i =>
      if results.any (fun r => r.occursSym i) then
        ⟨0, (tileSizesPerThread.getD i 1 : Int) - 1⟩
      else ⟨0, 0⟩)
    results []

/-- The results of a defined indexing map, evaluated at an assignment of
dimension variables and symbols (empty for the undefined sentinel). -/
def IndexingMap.evalResults (m : IndexingMap) (dims syms : Nat → Int) : List Int :=
  match m with
  | .undefined => []
  | .affineMap _ _ results _ => results.map (fun e => e.eval dims syms)

/-- Modelled from the spec: `MlirRowReductionFusion::GetSharedMemoryWriteMap`
(body in `reduction_mlir.cc` absent from the sources).  Spec §4.3: maps
(thread id, vector lane) to an address in a shared scratch buffer "sized
to hold one partial result per warp"; "undefined (sentinel) when the
chosen warps-per-row is 1".  Each thread writes its warp's slot:
address = thread id floordiv warp size. -/
def GetSharedMemoryWriteMap (rd : ReductionDimensions) (dl : DeviceLimits) :
    IndexingMap :=
  let warps := planWarpsPerRow rd dl
  if warps = 1 then .undefined
  else
    .affineMap
      [⟨0, (warps * dl.warp_size : Int) - 1⟩,
       ⟨0, (pickVectorSize rd.reduced_size : Int) - 1⟩]
      []
      [.floordiv (.dim 0) (.const dl.warp_size)]
      []

/-- Modelled from the spec:
`MlirRowReductionFusion::GetSharedMemoryReductionReadMap` (body in
`reduction_mlir.cc` absent from the sources).  The first warps-per-row
lanes read the per-warp partials back (address = thread id, constrained
to the buffer); undefined when the chosen warps-per-row is 1. -/
def GetSharedMemoryReductionReadMap (rd : ReductionDimensions)
    (dl : DeviceLimits) : IndexingMap :=
  let warps := planWarpsPerRow rd dl
  if warps = 1 then .undefined
  else
    .affineMap
      [⟨0, (warps * dl.warp_size : Int) - 1⟩,
       ⟨0, (pickVectorSize rd.reduced_size : Int) - 1⟩]
      []
      [.dim 0]
      [(.dim 0, ⟨0, (warps : Int) - 1⟩)]

/-- Modelled from the spec: `ComputeThreadIdToOutputIndexing` (body in
`reduction_mlir.cc` absent from the sources).  The header declares the
return type `std::optional<IndexingMap>`; a map is computed only for
roots that have a reduction hero, and `std::nullopt` is returned for the
other root indices.  `rootIsReduction` lists, per root index, whether
the root has a reduction hero. -/
def ComputeThreadIdToOutputIndexing (rootIsReduction : List Bool)
    (outputMap : IndexingMap) (root_index : Nat) : Option IndexingMap :=
  if rootIsReduction.getD root_index false then some outputMap else none

/-- Modelled from the spec: `ComputeThreadIdToInputIndexing` (body in
`reduction_mlir.cc` absent from the sources).  Same optionality as the
output query: no map is returned for root indices without a reduction
hero. -/
def ComputeThreadIdToInputIndexing (rootIsReduction : List Bool)
    (inputMap : IndexingMap) (root_index : Nat) (_hero_operand_index : Nat) :
    Option IndexingMap :=
  if rootIsReduction.getD root_index false then some inputMap else none

/-- Modelled from the spec: the flattened thread-to-input indexing
computed by `ComputeThreadIdToInputIndexing` via
`ComputeReductionInputIndexing` (bodies in `reduction_mlir.cc` absent
from the sources).  Spec §4.3: the input index is "an affine combination
of block id, thread id, vector lane, and thread-local tile-offset
symbols whose ranges equal `tile_sizes_per_thread`".  Flattened over the
input iteration space, block `b` (of `B`), thread `t` (of `T`), tile
offset `s` (of `S`) and vector lane `v` (of `V`) address the input
element `((b * T + t) * S + s) * V + v`; the in-bounds constraint keeps
only addresses below the input element count. -/
def threadIdToInputIndex (T S V : Nat) (b t s v : Nat) : Nat :=
  ((b * T + t) * S + s) * V + v

/-- An init value handed to the emitter: a scalar for a reduction hero,
a whole tensor for a side-output root (the `mlir::Value`s of the
`HloValueMap`, classified by rank). -/
inductive InitValue where
  | scalar (v : Int)
  | tensor (shape : List Nat)
deriving DecidableEq, Repr

/-- One reduction group as the emitter sees it: the ids of its reduction
heroes and of its side-output roots (one entry each of
`reduction_heroes_` and `side_output_roots_`). -/
structure EmitterGroup where
  heroes : List Nat
  sideOutputs : List Nat
deriving DecidableEq, Repr

/-- Modelled from the spec: `GetInitsAndSideOutputTensors` (body in
`reduction_mlir.cc` absent from the sources).  Header contract:
"Returns the init values for reductions, and the init values for the
side outputs.  Side output init values are tensors, while reduction init
values are scalars."  `heroInit` gives each hero's scalar init value,
`sideShape` each side output's tensor shape. -/
def GetInitsAndSideOutputTensors (g : EmitterGroup)
    (heroInit : Nat → Int) (sideShape : Nat → List Nat) :
    List (Nat × InitValue) :=
  g.heroes.map (fun h => (h, .scalar (heroInit h))) ++
    g.sideOutputs.map (fun s => (s, .tensor (sideShape s)))

end XlaGpu

namespace XlaGpu

theorem le_cdiv_mul (n k : Nat) (hk : 0 < k) : n ≤ cdiv n k * k := by
  unfold cdiv
  rw [Nat.mul_comm]
  have h1 := Nat.div_add_mod (n + k - 1) k
  have h2 : (n + k - 1) % k < k := Nat.mod_lt _ hk
  generalize hm : k * ((n + k - 1) / k) = m at h1
  generalize hr : (n + k - 1) % k = r at h1 h2
  omega

theorem pickVectorSize_pos (n : Nat) : 0 < pickVectorSize n := by
  unfold pickVectorSize
  split
  · simp
  · split <;> simp

theorem planWarpsPerRow_pos (rd : ReductionDimensions) (dl : DeviceLimits) :
    0 < planWarpsPerRow rd dl := by
  unfold planWarpsPerRow
  exact Nat.le_max_left _ _

theorem classProd_cons_self (c : DimClass) (d : Nat) (shape : List Nat)
    (classes : List DimClass) :
    classProd c (d :: shape) (c :: classes) = d * classProd c shape classes := by
  simp [classProd]

theorem classProd_cons_ne (c k : DimClass) (d : Nat) (shape : List Nat)
    (classes : List DimClass) (h : k ≠ c) :
    classProd c (d :: shape) (k :: classes) = classProd c shape classes := by
  simp [classProd, h]

theorem classProd_partition (shape : List Nat) (classes : List DimClass)
    (h : shape.length = classes.length) :
    classProd .Batch shape classes * classProd .Reduced shape classes *
      classProd .Kept shape classes = shape.prod := by
  induction shape generalizing classes with
  | nil => simp [classProd]
  | cons d rest ih =>
    cases classes with
    | nil => simp at h
    | cons k ks =>
      have hlen : rest.length = ks.length := by simpa using h
      have hrec := ih ks hlen
      cases k with
      | Batch =>
        rw [classProd_cons_self, classProd_cons_ne _ _ _ _ _ (by decide),
          classProd_cons_ne _ _ _ _ _ (by decide), List.prod_cons, ← hrec]
        ring
      | Kept =>
        rw [classProd_cons_self, classProd_cons_ne _ _ _ _ _ (by decide),
          classProd_cons_ne _ _ _ _ _ (by decide), List.prod_cons, ← hrec]
        ring
      | Reduced =>
        rw [classProd_cons_self, classProd_cons_ne _ _ _ _ _ (by decide),
          classProd_cons_ne _ _ _ _ _ (by decide), List.prod_cons, ← hrec]
        ring

/-- C4: whenever the fused subgraph contains more than one reduction
group or any side output, the analysis step reports the structured
unsupported-shape failure and produces no result, hence no
`TilingParameters`. -/
theorem analyze_rejects_unsupported (g : ReductionGroups)
    (rd : ReductionDimensions)
    (h : g.reduction_heroes.length > 1 ∨ ∃ l ∈ g.side_output_roots, l ≠ []) :
    Analyze g rd = .error .UnsupportedShape := by
  unfold Analyze
  rw [if_pos]
  rcases h with h | ⟨l, hl, hne⟩
  · exact Or.inl h
  · right
    rw [List.any_eq_true]
    exact ⟨l, hl, by simpa using hne⟩

theorem analyze_rejects_unsupported_witness :
    (ReductionGroups.mk [[1], [2]] [[1], [2]] [[], []]).reduction_heroes.length > 1 ∧
    Analyze (ReductionGroups.mk [[1], [2]] [[1], [2]] [[], []]) ⟨1, 1, 1, true⟩ =
      .error .UnsupportedShape :=
  ⟨by decide, analyze_rejects_unsupported _ _ (Or.inl (by decide))⟩

/-- C5: for every supported fusion, a minor-most reduced dimension
selects the row-reduction strategy and a non-minor-most reduced
dimension selects the column-reduction strategy; the two outcomes are
mutually exclusive and decided once by the analysis/factory step. -/
theorem strategy_selection (shape : List Nat) (classes : List DimClass) :
    (CreateMlirReductionFusion (computeReductionDimensions shape classes) = .Row ↔
      classes.getLast? = some .Reduced) ∧
    (CreateMlirReductionFusion (computeReductionDimensions shape classes) = .Column ↔
      classes.getLast? ≠ some .Reduced) := by
  by_cases h : classes.getLast? = some DimClass.Reduced <;>
    simp [CreateMlirReductionFusion, computeReductionDimensions, h]

/-- C6: planning is deterministic — identical `ReductionDimensions` and
device limits yield identical `TilingParameters` and
`LaunchDimensions`; the planner is a pure function of its inputs. -/
theorem plan_deterministic (rd₁ rd₂ : ReductionDimensions)
    (dl₁ dl₂ : DeviceLimits) (h₁ : rd₁ = rd₂) (h₂ : dl₁ = dl₂) :
    rowPlan rd₁ dl₁ = rowPlan rd₂ dl₂ := by
  subst h₁
  subst h₂
  rfl

theorem plan_deterministic_witness :
    rowPlan ⟨1, 4, 128, true⟩ ⟨32, 1024, 64⟩ =
      rowPlan ⟨1, 4, 128, true⟩ ⟨32, 1024, 64⟩ :=
  plan_deterministic ⟨1, 4, 128, true⟩ ⟨1, 4, 128, true⟩ ⟨32, 1024, 64⟩
    ⟨32, 1024, 64⟩ rfl rfl

/-- C8: for every constructed planner, the `ReductionDimensions` satisfy
`batch_size * reduced_size * kept_size` equal to the element count of
the reduced operand shape (`GetReduceOperandShape`). -/
theorem reduction_dims_product (shape : List Nat) (classes : List DimClass)
    (h : shape.length = classes.length) :
    (computeReductionDimensions shape classes).batch_size *
      (computeReductionDimensions shape classes).reduced_size *
      (computeReductionDimensions shape classes).kept_size =
      elementCount shape := by
  simpa [computeReductionDimensions, elementCount] using
    classProd_partition shape classes h

theorem reduction_dims_product_witness :
    ([2, 3, 4] : List Nat).length = [DimClass.Batch, .Kept, .Reduced].length ∧
    (computeReductionDimensions [2, 3, 4] [DimClass.Batch, .Kept, .Reduced]).batch_size *
      (computeReductionDimensions [2, 3, 4] [DimClass.Batch, .Kept, .Reduced]).reduced_size *
      (computeReductionDimensions [2, 3, 4] [DimClass.Batch, .Kept, .Reduced]).kept_size =
      elementCount [2, 3, 4] :=
  ⟨by decide, reduction_dims_product [2, 3, 4] [.Batch, .Kept, .Reduced] (by decide)⟩

/-- C2: any symbol (derived from `tile_sizes_per_thread_`) that does not
occur in the result expressions passed to `GetIndexingMap` has its
declared range in the returned map's domain set to exactly one point,
never to the full tile size. -/
theorem unused_symbol_range_collapsed (tiles : List Nat)
    (dims : List Interval) (results : List AffineExpr) (i : Nat)
    (hlen : i < tiles.length)
    (hocc : ∀ r ∈ results, r.occursSym i = false) :
    ∃ iv, (GetIndexingMap tiles dims results).symRange i = some iv ∧
      iv.size = 1 := by
  refine ⟨⟨0, 0⟩, ?_, by simp [Interval.size]⟩
  have hany : results.any (fun r => r.occursSym i) = false := by
    rw [List.any_eq_false]
    intro r hr
    simp [hocc r hr]
  simp only [GetIndexingMap, IndexingMap.symRange]
  rw [List.getElem?_map, List.getElem?_range hlen, Option.map_some']
  rw [if_neg (by simp [hany])]

theorem unused_symbol_range_collapsed_witness :
    1 < ([4, 2] : List Nat).length ∧
    ∃ iv, (GetIndexingMap [4, 2] [] [AffineExpr.sym 0]).symRange 1 = some iv ∧
      iv.size = 1 :=
  ⟨by decide,
    unused_symbol_range_collapsed [4, 2] [] [AffineExpr.sym 0] 1 (by decide)
      (by
        intro r hr
        have hr' := List.mem_singleton.mp hr
        subst hr'
        rfl)⟩

/-- C9: the per-root indexing queries return an optional value; for root
indices without a reduction hero they return no map at all, an outcome
distinct from returning the undefined-sentinel `IndexingMap`. -/
theorem indexing_queries_optionality (roots : List Bool) (m : IndexingMap)
    (i j : Nat) (h : roots.getD i false = false) :
    ComputeThreadIdToOutputIndexing roots m i = none ∧
    ComputeThreadIdToInputIndexing roots m i j = none ∧
    (none : Option IndexingMap) ≠ some IndexingMap.undefined := by
  unfold ComputeThreadIdToOutputIndexing ComputeThreadIdToInputIndexing
  rw [h]
  simp

theorem indexing_queries_optionality_witness :
    ([true, false] : List Bool).getD 1 false = false ∧
    ComputeThreadIdToOutputIndexing [true, false] IndexingMap.undefined 1 = none :=
  ⟨by decide,
    (indexing_queries_optionality [true, false] IndexingMap.undefined 1 0
      (by decide)).1⟩

/-- C10: for every group, `GetInitsAndSideOutputTensors` covers exactly
the reduction heroes and the side-output roots of the group; every
reduction hero's init value is a scalar and every side-output root's
init value is a whole tensor. -/
theorem inits_and_side_outputs (g : EmitterGroup) (heroInit : Nat → Int)
    (sideShape : Nat → List Nat) :
    (GetInitsAndSideOutputTensors g heroInit sideShape).map Prod.fst =
      g.heroes ++ g.sideOutputs ∧
    (∀ h ∈ g.heroes,
      (h, InitValue.scalar (heroInit h)) ∈
        GetInitsAndSideOutputTensors g heroInit sideShape) ∧
    (∀ s ∈ g.sideOutputs,
      (s, InitValue.tensor (sideShape s)) ∈
        GetInitsAndSideOutputTensors g heroInit sideShape) := by
  refine ⟨?_, ?_, ?_⟩
  · simp [GetInitsAndSideOutputTensors, Function.comp_def]
  · intro h hh
    exact List.mem_append_left _ (List.mem_map_of_mem _ hh)
  · intro s hs
    exact List.mem_append_right _ (List.mem_map_of_mem _ hs)

/-- C7: after planning, `tile_sizes_per_block[d]` equals
`tile_sizes_per_thread[d] * num_threads[d]` for every logical dimension
`d`, and the product over blocks, threads and per-thread tiles covers
(possibly with padding) the corresponding logical dimension of the
`ReductionDimensions`. -/
theorem tiling_invariant (rd : ReductionDimensions) (dl : DeviceLimits)
    (hw : 0 < dl.warp_size) (d : Nat) (hd : d < 3) :
    (rowPlan rd dl).1.tile_sizes_per_block.getD d 0 =
      (rowPlan rd dl).1.tile_sizes_per_thread.getD d 0 *
        (rowPlan rd dl).1.num_threads.getD d 0 ∧
    (logicalDims rd).getD d 0 ≤
      (rowPlan rd dl).1.num_blocks.getD d 0 *
        (rowPlan rd dl).1.tile_sizes_per_block.getD d 0 := by
  have hv : 0 < pickVectorSize rd.reduced_size := pickVectorSize_pos _
  have hwp : 0 < planWarpsPerRow rd dl := planWarpsPerRow_pos rd dl
  interval_cases d
  · exact ⟨by simp [rowPlan], by simp [rowPlan, logicalDims]⟩
  · exact ⟨by simp [rowPlan], by simp [rowPlan, logicalDims]⟩
  · constructor
    · simp [rowPlan]
    · have hpos : 0 < planWarpsPerRow rd dl * dl.warp_size *
          pickVectorSize rd.reduced_size :=
        Nat.mul_pos (Nat.mul_pos hwp hw) hv
      have hcov := le_cdiv_mul rd.reduced_size _ hpos
      simp only [rowPlan, logicalDims]
      simp only [List.getD, List.zipWith, List.get?]
      calc rd.reduced_size
          ≤ cdiv rd.reduced_size (planWarpsPerRow rd dl * dl.warp_size *
              pickVectorSize rd.reduced_size) *
            (planWarpsPerRow rd dl * dl.warp_size *
              pickVectorSize rd.reduced_size) := hcov
        _ = 1 * (pickVectorSize rd.reduced_size *
              cdiv rd.reduced_size (planWarpsPerRow rd dl * dl.warp_size *
                pickVectorSize rd.reduced_size) *
              (planWarpsPerRow rd dl * dl.warp_size)) := by ring

theorem tiling_invariant_witness :
    (0 < (32 : Nat) ∧ 2 < 3) ∧
    ((rowPlan ⟨2, 3, 100, true⟩ ⟨32, 1024, 64⟩).1.tile_sizes_per_block.getD 2 0 =
      (rowPlan ⟨2, 3, 100, true⟩ ⟨32, 1024, 64⟩).1.tile_sizes_per_thread.getD 2 0 *
        (rowPlan ⟨2, 3, 100, true⟩ ⟨32, 1024, 64⟩).1.num_threads.getD 2 0 ∧
    (logicalDims ⟨2, 3, 100, true⟩).getD 2 0 ≤
      (rowPlan ⟨2, 3, 100, true⟩ ⟨32, 1024, 64⟩).1.num_blocks.getD 2 0 *
        (rowPlan ⟨2, 3, 100, true⟩ ⟨32, 1024, 64⟩).1.tile_sizes_per_block.getD 2 0) :=
  ⟨⟨by decide, by decide⟩,
    tiling_invariant ⟨2, 3, 100, true⟩ ⟨32, 1024, 64⟩ (by decide) 2 (by decide)⟩

/-- C3: when the chosen warps-per-row is one, both shared-memory maps
return the explicit undefined sentinel; when it is greater than one,
both are defined, and every shared-buffer address either map produces on
its domain is nonnegative and below the per-block shared-memory budget
(the one-slot-per-warp buffer fits the budget). -/
theorem shared_memory_maps (rd : ReductionDimensions) (dl : DeviceLimits)
    (hw : 0 < dl.warp_size) :
    (planWarpsPerRow rd dl = 1 →
      GetSharedMemoryWriteMap rd dl = .undefined ∧
      GetSharedMemoryReductionReadMap rd dl = .undefined) ∧
    (1 < planWarpsPerRow rd dl →
      (GetSharedMemoryWriteMap rd dl).isUndefined = false ∧
      (GetSharedMemoryReductionReadMap rd dl).isUndefined = false ∧
      planWarpsPerRow rd dl ≤ dl.shared_mem_elems_per_block ∧
      (∀ t : Int, 0 ≤ t →
        t < ((planWarpsPerRow rd dl * dl.warp_size : Nat) : Int) →
        ∀ a ∈ (GetSharedMemoryWriteMap rd dl).evalResults
            (fun _ => t) (fun _ => 0),
          0 ≤ a ∧ a < (dl.shared_mem_elems_per_block : Int)) ∧
      (∀ t : Int, 0 ≤ t → t < ((planWarpsPerRow rd dl : Nat) : Int) →
        ∀ a ∈ (GetSharedMemoryReductionReadMap rd dl).evalResults
            (fun _ => t) (fun _ => 0),
          0 ≤ a ∧ a < (dl.shared_mem_elems_per_block : Int))) := by
  constructor
  · intro h1
    constructor
    · unfold GetSharedMemoryWriteMap
      rw [if_pos h1]
    · unfold GetSharedMemoryReductionReadMap
      rw [if_pos h1]
  · intro h2
    have hne : planWarpsPerRow rd dl ≠ 1 := by omega
    have hbudget : planWarpsPerRow rd dl ≤ dl.shared_mem_elems_per_block := by
      unfold planWarpsPerRow at h2 ⊢
      generalize cdiv rd.reduced_size
        (dl.warp_size * pickVectorSize rd.reduced_size) = a at h2 ⊢
      generalize dl.max_threads_per_block / dl.warp_size = b at h2 ⊢
      omega
    refine ⟨?_, ?_, hbudget, ?_, ?_⟩
    · unfold GetSharedMemoryWriteMap
      rw [if_neg hne]
      rfl
    · unfold GetSharedMemoryReductionReadMap
      rw [if_neg hne]
      rfl
    · intro t ht0 htlt a ha
      unfold GetSharedMemoryWriteMap at ha
      rw [if_neg hne] at ha
      simp only [IndexingMap.evalResults, List.map, AffineExpr.eval,
        List.mem_singleton] at ha
      subst ha
      have hwz : (0 : Int) < (dl.warp_size : Int) := by exact_mod_cast hw
      constructor
      · exact Int.ediv_nonneg ht0 (le_of_lt hwz)
      · have hlt : t / (dl.warp_size : Int) < (planWarpsPerRow rd dl : Int) := by
          apply Int.ediv_lt_of_lt_mul hwz
          calc t < ((planWarpsPerRow rd dl * dl.warp_size : Nat) : Int) := htlt
            _ = (planWarpsPerRow rd dl : Int) * (dl.warp_size : Int) := by
                push_cast
                ring
        calc t / (dl.warp_size : Int) < (planWarpsPerRow rd dl : Int) := hlt
          _ ≤ (dl.shared_mem_elems_per_block : Int) := by exact_mod_cast hbudget
    · intro t ht0 htlt a ha
      unfold GetSharedMemoryReductionReadMap at ha
      rw [if_neg hne] at ha
      simp only [IndexingMap.evalResults, List.map, AffineExpr.eval,
        List.mem_singleton] at ha
      rw [ha]
      refine ⟨ht0, ?_⟩
      calc t < ((planWarpsPerRow rd dl : Nat) : Int) := htlt
        _ ≤ (dl.shared_mem_elems_per_block : Int) := by exact_mod_cast hbudget

theorem shared_memory_maps_witness :
    (0 < (32 : Nat) ∧ 1 < planWarpsPerRow ⟨1, 256, 1, true⟩ ⟨32, 1024, 32⟩) ∧
    (GetSharedMemoryWriteMap ⟨1, 256, 1, true⟩ ⟨32, 1024, 32⟩).isUndefined = false :=
  ⟨⟨by decide, by decide⟩,
    ((shared_memory_maps ⟨1, 256, 1, true⟩ ⟨32, 1024, 32⟩ (by decide)).2
      (by decide)).1⟩

theorem encode_inj_step {V a a' v v' : Nat} (hv : v < V) (hv' : v' < V)
    (h : a * V + v = a' * V + v') : a = a' ∧ v = v' := by
  have hV : 0 < V := by omega
  have ha : (a * V + v) / V = a := by
    rw [Nat.mul_comm a V, Nat.mul_add_div hV, Nat.div_eq_of_lt hv, Nat.add_zero]
  have ha' : (a' * V + v') / V = a' := by
    rw [Nat.mul_comm a' V, Nat.mul_add_div hV, Nat.div_eq_of_lt hv', Nat.add_zero]
  have heq : a = a' := by rw [← ha, ← ha', h]
  subst heq
  exact ⟨rfl, Nat.add_left_cancel h⟩

/-- C1: for every valid pair of reduction dimensions and tiling
parameters (validity: the block/thread/tile/vector domain is large
enough to cover the input), each in-bounds input element is visited
exactly once by the flattened thread-to-input indexing map: for every
input element index there is exactly one (block id, thread id,
tile offset, vector lane) domain point mapping to it. -/
theorem input_indexing_covers_exactly_once (B T S V N : Nat)
    (hN : N ≤ B * T * S * V) (n : Nat) (hn : n < N) :
    ∃! q : Fin B × Fin T × Fin S × Fin V,
      threadIdToInputIndex T S V q.1.val q.2.1.val q.2.2.1.val q.2.2.2.val
        = n := by
  have hprod : 0 < B * T * S * V :=
    lt_of_le_of_lt (Nat.zero_le n) (lt_of_lt_of_le hn hN)
  have hB : 0 < B := Nat.pos_of_ne_zero fun h => by subst h; simp at hprod
  have hT : 0 < T := Nat.pos_of_ne_zero fun h => by subst h; simp at hprod
  have hS : 0 < S := Nat.pos_of_ne_zero fun h => by subst h; simp at hprod
  have hV : 0 < V := Nat.pos_of_ne_zero fun h => by subst h; simp at hprod
  have hv : n % V < V := Nat.mod_lt _ hV
  have hs : (n / V) % S < S := Nat.mod_lt _ hS
  have ht : (n / V / S) % T < T := Nat.mod_lt _ hT
  have hb : n / V / S / T < B := by
    rw [Nat.div_div_eq_div_mul, Nat.div_div_eq_div_mul]
    rw [Nat.div_lt_iff_lt_mul (Nat.mul_pos hV (Nat.mul_pos hS hT))]
    calc n < N := hn
      _ ≤ B * T * S * V := hN
      _ = B * (V * (S * T)) := by ring
  have henc : threadIdToInputIndex T S V (n / V / S / T) ((n / V / S) % T)
      ((n / V) % S) (n % V) = n := by
    unfold threadIdToInputIndex
    have e1 : n / V / S / T * T + (n / V / S) % T = n / V / S := by
      rw [Nat.mul_comm]
      exact Nat.div_add_mod _ T
    have e2 : n / V / S * S + (n / V) % S = n / V := by
      rw [Nat.mul_comm]
      exact Nat.div_add_mod _ S
    have e3 : n / V * V + n % V = n := by
      rw [Nat.mul_comm]
      exact Nat.div_add_mod _ V
    rw [e1, e2, e3]
  refine ⟨⟨⟨_, hb⟩, ⟨_, ht⟩, ⟨_, hs⟩, ⟨_, hv⟩⟩, henc, ?_⟩
  rintro ⟨⟨b', hb'⟩, ⟨t', ht'⟩, ⟨s', hs'⟩, ⟨v', hv'⟩⟩ h'
  have key : threadIdToInputIndex T S V b' t' s' v' =
      threadIdToInputIndex T S V (n / V / S / T) ((n / V / S) % T)
        ((n / V) % S) (n % V) := by
    rw [h', henc]
  unfold threadIdToInputIndex at key
  obtain ⟨k1, kv⟩ := encode_inj_step hv' hv key
  obtain ⟨k2, ks⟩ := encode_inj_step hs' hs k1
  obtain ⟨k3, kt⟩ := encode_inj_step ht' ht k2
  simp only [Prod.mk.injEq, Fin.mk.injEq]
  exact ⟨k3, kt, ks, kv⟩

theorem input_indexing_covers_exactly_once_witness :
    ((16 : Nat) ≤ 2 * 2 * 2 * 2 ∧ 5 < 16) ∧
    ∃! q : Fin 2 × Fin 2 × Fin 2 × Fin 2,
      threadIdToInputIndex 2 2 2 q.1.val q.2.1.val q.2.2.1.val q.2.2.2.val
        = 5 :=
  ⟨⟨by decide, by decide⟩,
    input_indexing_covers_exactly_once 2 2 2 2 16 (by decide) 5 (by decide)⟩

theorem inits_and_side_outputs_witness :
    1 ∈ (EmitterGroup.mk [1] [2]).heroes ∧
    (1, InitValue.scalar 7) ∈
      GetInitsAndSideOutputTensors ⟨[1], [2]⟩ (fun _ => 7) (fun _ => [3]) :=
  ⟨by decide,
    (inits_and_side_outputs ⟨[1], [2]⟩ (fun _ => 7) (fun _ => [3])).2.1 1
      (by decide)⟩

end XlaGpu
